import Mathlib

/-
Verification of the bonus-points ledger (transactions table + TransactionModel).

The embedding mirrors the SQL schema and the Go data layer:
- `Transaction` is a row of the `transactions` table; `State` is the table contents
  in insertion order.
- The schema CHECK constraints (`amount > 0`, `check_remaining_amount`) are enforced
  on every INSERT and UPDATE, as Postgres does; a violated constraint aborts the
  enclosing transaction, modelled as `Except.error`, leaving the state unchanged
  (the Go code `defer tx.Rollback()` discards all partial work on any error).
- `now` is passed explicitly: `NOW()`, `time.Now()` and `created_at DEFAULT NOW()`
  all read this one instant; `AddDate(0, 0, ttlDays)` is `now + ttlDays * 86400`
  seconds.
- Fresh uuids (`uuid.New()`) are passed in as parameters.
- `ORDER BY created_at ASC` is modelled by `insertionSort` on `created_at`.
-/

inductive TxType where
  | deposit | withdrawal | reserve | commit | rollback
deriving DecidableEq

inductive TxStatus where
  | completed | reserved | cancelled
deriving DecidableEq

/-- One row of the `transactions` table. -/
structure Transaction where
  id : Nat
  user_id : Nat
  amount : Int
  type : TxType
  status : TxStatus
  expires_at : Option Int
  created_at : Int
  reservation_id : Option Nat
  remaining_amount : Int
deriving DecidableEq

/-- The contents of the `transactions` table, in insertion order. -/
abbrev State := List Transaction

/-- Result of `GetBalance`: the Go `UserBalance` struct (expiring points omitted). -/
structure UserBalance where
  user_id : Nat
  total_amount : Int
deriving DecidableEq

structure ExpiringPoints where
  amount : Int
  expires_at : Int
deriving DecidableEq

inductive LedgerErr where
  | insufficientFunds | notFound | checkViolation | internalErr
deriving DecidableEq

/-- Schema constraint `CHECK (amount > 0)`. -/
def check_amount (r : Transaction) : Bool :=
  decide (0 < r.amount)

/-- Schema constraint `check_remaining_amount`:
`CHECK (remaining_amount >= 0 AND remaining_amount <= amount)`. -/
def check_remaining_amount (r : Transaction) : Bool :=
  decide (0 ≤ r.remaining_amount) && decide (r.remaining_amount ≤ r.amount)

/-- All row-level CHECK constraints of the `transactions` table (the `type` and
`status` CHECKs hold by typing). -/
def rowOk (r : Transaction) : Bool :=
  check_amount r && check_remaining_amount r

/-- SQL INSERT: appends the row; a CHECK violation aborts the transaction. -/
def insertRow (s : State) (r : Transaction) : Except LedgerErr State :=
  if rowOk r then .ok (s ++ [r]) else .error .checkViolation

/-- SQL UPDATE: rewrites every row matching `p` by `f`; a CHECK violation on any
updated row aborts the transaction. -/
def updateRows (s : State) (p : Transaction → Bool) (f : Transaction → Transaction) :
    Except LedgerErr State :=
  if s.all (fun r => !p r || rowOk (f r)) then
    .ok (s.map (fun r => if p r then f r else r))
  else .error .checkViolation

/-- `ORDER BY created_at ASC`. -/
def sortByCreated (l : List Transaction) : List Transaction :=
  l.insertionSort (fun a b => a.created_at ≤ b.created_at)

/-- `expires_at IS NULL OR expires_at > NOW()`. -/
def expiresOk (now : Int) (r : Transaction) : Bool :=
  match r.expires_at with
  | none => true
  | some e => decide (now < e)

/-- The live-deposit filter shared by WithdrawPoints, GetBalance and ReservePoints:
`type = 'deposit' AND status = 'completed' AND remaining_amount > 0 AND
(expires_at IS NULL OR expires_at > NOW())` for the given user. -/
def isLiveDeposit (now : Int) (u : Nat) (r : Transaction) : Bool :=
  decide (r.user_id = u) && decide (r.type = TxType.deposit)
    && decide (r.status = TxStatus.completed) && decide (0 < r.remaining_amount)
    && expiresOk now r

/-- `reservation_id = $1 AND status = 'reserved'`: a hold row of reservation `resId`. -/
def isHold (resId : Nat) (r : Transaction) : Bool :=
  decide (r.reservation_id = some resId) && decide (r.status = TxStatus.reserved)

/-- The filter of RollbackReservation's return subquery: a deposit row of the user
that is completed and unexpired (note: no `remaining_amount > 0` condition). -/
def liveReturnTarget (now : Int) (u : Nat) (r : Transaction) : Bool :=
  decide (r.user_id = u) && decide (r.type = TxType.deposit)
    && decide (r.status = TxStatus.completed) && expiresOk now r

/-- AddPoints: inserts one deposit lot and returns it; `rid` is the fresh uuid. -/
def AddPoints (s : State) (now : Int) (rid u : Nat) (amount ttlDays : Int) :
    Except LedgerErr (Transaction × State) :=
  let t : Transaction :=
    { id := rid, user_id := u, amount := amount, type := .deposit, status := .completed,
      expires_at := if 0 < ttlDays then some (now + ttlDays * 86400) else none,
      created_at := now, reservation_id := none, remaining_amount := amount }
  match insertRow s t with
  | .ok s1 => .ok (t, s1)
  | .error e => .error e

/-- The FIFO deduction loop of WithdrawPoints/ReservePoints: walk the lots in
order, deduct `min(remaining, left)` from each, stop when nothing is left. -/
def fifoDeduct : List (Nat × Int) → Int → List (Nat × Int)
  | [], _ => []
  | (i, rem) :: rest, left =>
    if left = 0 then []
    else
      let d := if rem > left then left else rem
      (i, d) :: fifoDeduct rest (left - d)

/-- The FIFO consumer: the availability check followed by the deduction loop,
exactly as inlined in WithdrawPoints and ReservePoints. -/
def fifoConsume (lots : List (Nat × Int)) (amount : Int) : Option (List (Nat × Int)) :=
  if (lots.map (·.2)).sum < amount then none else some (fifoDeduct lots amount)

/-- `UPDATE transactions SET remaining_amount = remaining_amount - $1 WHERE id = $2`,
executed for each deduction in order. -/
def applyDeducts : State → List (Nat × Int) → Except LedgerErr State
  | s, [] => .ok s
  | s, (i, d) :: rest =>
    match updateRows s (fun r => decide (r.id = i))
        (fun r => { r with remaining_amount := r.remaining_amount - d }) with
    | .ok s1 => applyDeducts s1 rest
    | .error e => .error e

/-- WithdrawPoints: lock and read the user's live lots FIFO, check availability,
deduct, then insert a `(withdrawal, completed)` audit row; `wid` is its fresh uuid. -/
def WithdrawPoints (s : State) (now : Int) (wid u : Nat) (amount : Int) :
    Except LedgerErr State :=
  let deposits := sortByCreated (s.filter (isLiveDeposit now u))
  match fifoConsume (deposits.map (fun r => (r.id, r.remaining_amount))) amount with
  | none => .error .insufficientFunds
  | some ds =>
    match applyDeducts s ds with
    | .ok s1 =>
      insertRow s1
        { id := wid, user_id := u, amount := amount, type := .withdrawal,
          status := .completed, expires_at := none, created_at := now,
          reservation_id := none, remaining_amount := 0 }
    | .error e => .error e

/-- GetBalance: `COALESCE(SUM(remaining_amount), 0)` over the user's live deposit
lots. It is a total function of the state: it cannot fail (store I/O aside). -/
def GetBalance (s : State) (now : Int) (u : Nat) : UserBalance :=
  { user_id := u,
    total_amount := ((s.filter (isLiveDeposit now u)).map (·.remaining_amount)).sum }

/-- GetExpiringPoints: amounts grouped by `expires_at` within
`(now, now + days·24h]`, ordered by `expires_at` ascending. A pure read. -/
def GetExpiringPoints (s : State) (now : Int) (u : Nat) (days : Int) :
    List ExpiringPoints :=
  let rows := s.filter (fun r =>
    decide (r.user_id = u) && decide (r.type = TxType.deposit)
      && decide (r.status = TxStatus.completed) && decide (0 < r.remaining_amount)
      && (match r.expires_at with
          | none => false
          | some e => decide (now < e) && decide (e ≤ now + 86400 * days)))
  let es := ((rows.filterMap (·.expires_at)).dedup).insertionSort (· ≤ ·)
  es.map (fun e =>
    { expires_at := e,
      amount := ((rows.filter (fun r => decide (r.expires_at = some e))).map
        (·.remaining_amount)).sum })

/-- A hold row as inserted by ReservePoints: `(reserve, reserved)` with
`amount = remaining_amount = d` and the reservation id set. -/
def mkHold (hid u : Nat) (d : Int) (resId : Nat) (now : Int) : Transaction :=
  { id := hid, user_id := u, amount := d, type := .reserve, status := .reserved,
    expires_at := none, created_at := now, reservation_id := some resId,
    remaining_amount := d }

/-- The reservation loop: for each deduction insert a hold row, then decrement the
source lot. `ids k` is the fresh uuid of the k-th hold row. -/
def applyReserves (u resId : Nat) (now : Int) (ids : Nat → Nat) :
    Nat → State → List (Nat × Int) → Except LedgerErr State
  | _, t, [] => .ok t
  | k, t, (i, d) :: rest =>
    match insertRow t (mkHold (ids k) u d resId now) with
    | .error e => .error e
    | .ok t1 =>
      match updateRows t1 (fun r => decide (r.id = i))
          (fun r => { r with remaining_amount := r.remaining_amount - d }) with
      | .error e => .error e
      | .ok t2 => applyReserves u resId now ids (k + 1) t2 rest

/-- ReservePoints: like WithdrawPoints, but each deduction becomes a hold row of
the freshly minted reservation `resId`, which is returned. -/
def ReservePoints (s : State) (now : Int) (ids : Nat → Nat) (resId u : Nat)
    (amount : Int) : Except LedgerErr (Nat × State) :=
  let deposits := sortByCreated (s.filter (isLiveDeposit now u))
  match fifoConsume (deposits.map (fun r => (r.id, r.remaining_amount))) amount with
  | none => .error .insufficientFunds
  | some ds =>
    match applyReserves u resId now ids 0 s ds with
    | .ok s1 => .ok (resId, s1)
    | .error e => .error e

/-- CommitReservation: flip every `(reservation_id = R, status = reserved)` row to
`(withdrawal, completed)`; fail `not_found` when zero rows were affected. -/
def CommitReservation (s : State) (resId : Nat) : Except LedgerErr State :=
  match updateRows s (isHold resId)
      (fun r => { r with status := .completed, type := .withdrawal }) with
  | .error e => .error e
  | .ok s1 =>
    if s.countP (isHold resId) = 0 then .error .notFound else .ok s1

/-- The per-hold return loop of RollbackReservation: look up the hold's user, then
credit the hold's amount to the user's oldest live deposit lot; the update matches
zero rows (a no-op) when no such lot exists. -/
def applyReturns (now : Int) : State → List (Nat × Int) → Except LedgerErr State
  | t, [] => .ok t
  | t, (hid, amt) :: rest =>
    match t.find? (fun r => decide (r.id = hid)) with
    | none => .error .internalErr
    | some h =>
      match (sortByCreated (t.filter (liveReturnTarget now h.user_id))).head? with
      | none => applyReturns now t rest
      | some tgt =>
        match updateRows t (fun r => decide (r.id = tgt.id))
            (fun r => { r with remaining_amount := r.remaining_amount + amt }) with
        | .ok t1 => applyReturns now t1 rest
        | .error e => .error e

/-- RollbackReservation: read R's hold rows, fail `not_found` when none, mark them
cancelled, then return each hold's amount via `applyReturns`. -/
def RollbackReservation (s : State) (now : Int) (resId : Nat) :
    Except LedgerErr State :=
  let reserves := (s.filter (isHold resId)).map (fun r => (r.id, r.amount))
  if reserves.isEmpty then .error .notFound
  else
    match updateRows s (isHold resId) (fun r => { r with status := .cancelled }) with
    | .error e => .error e
    | .ok s1 => applyReturns now s1 reserves

/-- Invariant I1 as claimed: every row keeps `0 ≤ remaining_amount ≤ amount`. -/
def RemInv (s : State) : Prop :=
  ∀ r ∈ s, 0 ≤ r.remaining_amount ∧ r.remaining_amount ≤ r.amount

/-
Basic facts about the store primitives.
-/

theorem insertRow_ok {s : State} {r : Transaction} {s' : State}
    (h : insertRow s r = .ok s') : s' = s ++ [r] ∧ rowOk r = true := by
  unfold insertRow at h
  split at h <;> simp_all

theorem updateRows_ok {s : State} {p : Transaction → Bool}
    {f : Transaction → Transaction} {s' : State}
    (h : updateRows s p f = .ok s') :
    s' = s.map (fun r => if p r then f r else r)
      ∧ ∀ r ∈ s, p r = true → rowOk (f r) = true := by
  unfold updateRows at h
  split at h
  · next hall =>
    refine ⟨by simp_all, fun r hr hp => ?_⟩
    have hh := List.all_eq_true.mp hall r hr
    simpa [hp] using hh
  · simp at h

theorem updateRows_isOk {s : State} {p : Transaction → Bool}
    {f : Transaction → Transaction}
    (h : ∀ r ∈ s, p r = true → rowOk (f r) = true) :
    updateRows s p f = .ok (s.map (fun r => if p r then f r else r)) := by
  unfold updateRows
  rw [if_pos]
  exact List.all_eq_true.mpr fun r hr => by
    by_cases hp : p r = true <;> simp [hp, h r hr]

theorem rowOk_rem {r : Transaction} (h : rowOk r = true) :
    0 ≤ r.remaining_amount ∧ r.remaining_amount ≤ r.amount := by
  simp [rowOk, check_amount, check_remaining_amount] at h
  exact h.2

theorem RemInv_updateRows {s : State} {p : Transaction → Bool}
    {f : Transaction → Transaction} {s' : State}
    (hs : RemInv s) (h : updateRows s p f = .ok s') : RemInv s' := by
  obtain ⟨rfl, hck⟩ := updateRows_ok h
  intro r hr
  obtain ⟨x, hx, rfl⟩ := List.mem_map.mp hr
  by_cases hp : p x = true
  · simpa [hp] using rowOk_rem (hck x hx hp)
  · simpa [hp] using hs x hx

theorem RemInv_insertRow {s : State} {r : Transaction} {s' : State}
    (hs : RemInv s) (h : insertRow s r = .ok s') : RemInv s' := by
  obtain ⟨rfl, hck⟩ := insertRow_ok h
  intro x hx
  rcases List.mem_append.mp hx with hx | hx
  · exact hs x hx
  · simp at hx
    subst hx
    exact rowOk_rem hck

/-
Balance accounting: `GetBalance` as a sum of per-row contributions.
-/

/-- The contribution of one row to a user's balance. -/
def contrib (now : Int) (u : Nat) (r : Transaction) : Int :=
  if isLiveDeposit now u r then r.remaining_amount else 0

theorem total_eq_sum_contrib (now : Int) (u : Nat) :
    ∀ s : State, (GetBalance s now u).total_amount = (s.map (contrib now u)).sum
  | [] => rfl
  | a :: t => by
    have ih := total_eq_sum_contrib now u t
    by_cases h : isLiveDeposit now u a = true <;>
      simp [GetBalance, List.filter_cons, h, contrib] at * <;>
      omega

theorem sum_map_update_one {g : Transaction → Int} :
    ∀ (s : State) (i : Nat) (f : Transaction → Transaction) (r : Transaction),
    (s.map (·.id)).Nodup → r ∈ s → r.id = i →
    ((s.map (fun x => if decide (x.id = i) then f x else x)).map g).sum
      = (s.map g).sum - g r + g (f r)
  | a :: t, i, f, r, hnd, hr, hi => by
    simp only [List.map_cons, List.nodup_cons] at hnd
    simp only [List.map_cons, List.sum_cons]
    rcases List.mem_cons.mp hr with rfl | hrt
    · have hd : (if decide (r.id = i) = true then f r else r) = f r := by simp [hi]
      have ht : t.map (fun x => if decide (x.id = i) = true then f x else x) = t := by
        conv_rhs => rw [← List.map_id t]
        apply List.map_congr_left
        intro x hx
        have hne : x.id ≠ i := fun hxe =>
          hnd.1 (by rw [hi, ← hxe]; exact List.mem_map_of_mem (·.id) hx)
        simp [hne]
      rw [hd, ht]
      omega
    · have ha : a.id ≠ i := fun hae =>
        hnd.1 (by rw [hae, ← hi]; exact List.mem_map_of_mem (·.id) hrt)
      have ih := sum_map_update_one (g := g) t i f r hnd.2 hrt hi
      rw [if_neg (by simp [ha]), ih]
      omega

theorem find?_eq_of_nodup :
    ∀ (s : State) (r : Transaction), (s.map (·.id)).Nodup → r ∈ s →
    s.find? (fun x => decide (x.id = r.id)) = some r
  | a :: t, r, hnd, hr => by
    simp only [List.map_cons, List.nodup_cons] at hnd
    rcases List.mem_cons.mp hr with rfl | hrt
    · rw [List.find?_cons_of_pos _ (by simp)]
    · have ha : a.id ≠ r.id := fun hae =>
        hnd.1 (by rw [hae]; exact List.mem_map_of_mem (·.id) hrt)
      rw [List.find?_cons_of_neg _ (by simp [ha])]
      exact find?_eq_of_nodup t r hnd.2 hrt

/-
Facts about `sortByCreated` (a sorted permutation, as ORDER BY produces).
-/

theorem sortByCreated_perm (l : List Transaction) : List.Perm (sortByCreated l) l :=
  List.perm_insertionSort _ l

theorem mem_sortByCreated {l : List Transaction} {r : Transaction} :
    r ∈ sortByCreated l ↔ r ∈ l :=
  (sortByCreated_perm l).mem_iff

theorem sortByCreated_eq_nil {l : List Transaction} :
    sortByCreated l = [] ↔ l = [] := by
  constructor
  · intro h
    have := (sortByCreated_perm l).symm.length_eq
    rw [h] at this
    exact List.length_eq_zero.mp this
  · intro h
    subst h
    rfl

theorem sum_map_sortByCreated (l : List Transaction) (g : Transaction → Int) :
    ((sortByCreated l).map g).sum = (l.map g).sum :=
  ((sortByCreated_perm l).map g).sum_eq

/-
The FIFO consumer.
-/

theorem fifoDeduct_zero (L : List (Nat × Int)) : fifoDeduct L 0 = [] := by
  cases L with
  | nil => rfl
  | cons p rest => cases p; simp [fifoDeduct]

theorem fifoDeduct_fst :
    ∀ (L : List (Nat × Int)) (A : Int),
    (fifoDeduct L A).map (·.1) = (L.take (fifoDeduct L A).length).map (·.1)
  | [], _ => rfl
  | (i, rem) :: rest, A => by
    by_cases hA : A = 0
    · simp [fifoDeduct, hA]
    · simp only [fifoDeduct, if_neg hA, List.map_cons, List.length_cons,
        List.take_succ_cons]
      rw [fifoDeduct_fst rest _]

theorem fifoDeduct_spec :
    ∀ (L : List (Nat × Int)) (A : Int),
    (∀ p ∈ L, 0 < p.2) → 0 < A → A ≤ (L.map (·.2)).sum →
    List.Forall₂ (fun d l => d.1 = l.1 ∧ 0 < d.2 ∧ d.2 ≤ l.2)
        (fifoDeduct L A) (L.take (fifoDeduct L A).length)
      ∧ ((fifoDeduct L A).map (·.2)).sum = A
      ∧ (fifoDeduct L A).dropLast = L.take ((fifoDeduct L A).length - 1)
  | [], A, _, hA, hle => by
    simp at hle
    omega
  | (i, rem) :: rest, A, hpos, hA, hle => by
    have hrem : 0 < rem := hpos (i, rem) (List.mem_cons_self _ _)
    have hA0 : ¬(A = 0) := by omega
    by_cases hcase : rem > A
    · have hD : fifoDeduct ((i, rem) :: rest) A = [(i, A)] := by
        simp [fifoDeduct, hA0, hcase, fifoDeduct_zero]
      rw [hD]
      refine ⟨?_, by simp, by simp⟩
      exact List.Forall₂.cons ⟨rfl, hA, le_of_lt hcase⟩ List.Forall₂.nil
    · have hd : (if rem > A then A else rem) = rem := if_neg hcase
      have hD : fifoDeduct ((i, rem) :: rest) A
          = (i, rem) :: fifoDeduct rest (A - rem) := by
        simp only [fifoDeduct, if_neg hA0, hd]
      by_cases heq : A = rem
      · rw [hD, ← heq]
        simp only [sub_self, fifoDeduct_zero]
        refine ⟨?_, by simp, by simp⟩
        exact List.Forall₂.cons ⟨rfl, hA, le_refl _⟩ List.Forall₂.nil
      · have hlt : rem < A := by omega
        have hsum : A - rem ≤ (rest.map (·.2)).sum := by
          simp at hle
          omega
        obtain ⟨ihF, ihS, ihD⟩ :=
          fifoDeduct_spec rest (A - rem)
            (fun p hp => hpos p (List.mem_cons_of_mem _ hp)) (by omega) hsum
        have hne : fifoDeduct rest (A - rem) ≠ [] := by
          intro hnil
          rw [hnil] at ihS
          simp at ihS
          omega
        obtain ⟨b, D2, hD2⟩ := List.exists_cons_of_ne_nil hne
        rw [hD]
        refine ⟨?_, ?_, ?_⟩
        · simp only [List.length_cons, List.take_succ_cons]
          exact List.Forall₂.cons ⟨rfl, hrem, le_refl _⟩ ihF
        · simp only [List.map_cons, List.sum_cons, ihS]
          omega
        · rw [hD2] at ihD ⊢
          rw [List.dropLast_cons₂, ihD]
          simp

/-- C1: for lots with positive remainders and a positive target A, the FIFO
consumer used by WithdrawPoints and ReservePoints either (when the total suffices)
yields deductions over a prefix of the lots, in order, each `0 < d ≤ remaining`,
summing to A, every lot before the last consumed one fully drained (FIFO
monotonicity); or (when the total is short) reports insufficiency and yields no
deductions. -/
theorem fifo_consumer_correct (L : List (Nat × Int)) (A : Int)
    (hpos : ∀ p ∈ L, 0 < p.2) (hA : 0 < A) :
    (A ≤ (L.map (·.2)).sum →
      fifoConsume L A = some (fifoDeduct L A)
        ∧ List.Forall₂ (fun d l => d.1 = l.1 ∧ 0 < d.2 ∧ d.2 ≤ l.2)
            (fifoDeduct L A) (L.take (fifoDeduct L A).length)
        ∧ ((fifoDeduct L A).map (·.2)).sum = A
        ∧ (fifoDeduct L A).dropLast = L.take ((fifoDeduct L A).length - 1))
    ∧ ((L.map (·.2)).sum < A → fifoConsume L A = none) := by
  constructor
  · intro hle
    refine ⟨?_, fifoDeduct_spec L A hpos hA hle⟩
    unfold fifoConsume
    rw [if_neg (not_lt.mpr hle)]
  · intro hlt
    unfold fifoConsume
    rw [if_pos hlt]

/-- Witness for C1 at L = [(1, 5), (2, 7)], A = 8: both hypotheses hold and the
consumer drains lot 1 fully and takes 3 from lot 2. -/
theorem fifo_consumer_correct_witness :
    (∀ p ∈ [((1 : Nat), (5 : Int)), (2, 7)], 0 < p.2) ∧ (0 : Int) < 8
      ∧ fifoDeduct [((1 : Nat), (5 : Int)), (2, 7)] 8 = [(1, 5), (2, 3)]
      ∧ (8 ≤ ([((1 : Nat), (5 : Int)), (2, 7)].map (·.2)).sum →
          fifoConsume [((1 : Nat), (5 : Int)), (2, 7)] 8
              = some (fifoDeduct [((1 : Nat), (5 : Int)), (2, 7)] 8)
            ∧ List.Forall₂ (fun d l => d.1 = l.1 ∧ 0 < d.2 ∧ d.2 ≤ l.2)
                (fifoDeduct [((1 : Nat), (5 : Int)), (2, 7)] 8)
                ([((1 : Nat), (5 : Int)), (2, 7)].take
                  (fifoDeduct [((1 : Nat), (5 : Int)), (2, 7)] 8).length)
            ∧ ((fifoDeduct [((1 : Nat), (5 : Int)), (2, 7)] 8).map (·.2)).sum = 8
            ∧ (fifoDeduct [((1 : Nat), (5 : Int)), (2, 7)] 8).dropLast
                = [((1 : Nat), (5 : Int)), (2, 7)].take
                  ((fifoDeduct [((1 : Nat), (5 : Int)), (2, 7)] 8).length - 1)) :=
  ⟨by decide, by decide, by decide,
    (fifo_consumer_correct [((1 : Nat), (5 : Int)), (2, 7)] 8 (by decide) (by decide)).1⟩

/-- C10: when no row of the state passes the live-deposit filter for a user
(in particular for a user the ledger has never seen), GetBalance returns total 0.
`GetBalance` is a total function of the state: the ledger level cannot signal
`not_found`; only store I/O (outside this model) can fail the call. -/
theorem GetBalance_total_zero_of_no_live (s : State) (now : Int) (u : Nat)
    (h : ∀ r ∈ s, isLiveDeposit now u r = false) :
    GetBalance s now u = { user_id := u, total_amount := 0 } := by
  have hf : s.filter (isLiveDeposit now u) = [] := by
    rw [List.filter_eq_nil_iff]
    intro a ha
    simp [h a ha]
  simp [GetBalance, hf]

/-- A withdrawal audit row of user 3, the demonstration state for C10. -/
def c10row : Transaction :=
  { id := 4, user_id := 3, amount := 10, type := .withdrawal, status := .completed,
    expires_at := none, created_at := 0, reservation_id := none, remaining_amount := 0 }

/-- Witness for C10: a state holding only a withdrawal audit row of user 3 gives
that user balance 0. -/
theorem GetBalance_total_zero_of_no_live_witness :
    (∀ r ∈ [c10row], isLiveDeposit 0 3 r = false)
      ∧ GetBalance [c10row] 0 3 = { user_id := 3, total_amount := 0 } :=
  ⟨by decide, GetBalance_total_zero_of_no_live [c10row] 0 3 (by decide)⟩

/-
Contribution helpers.
-/

theorem contrib_of_not_live {now : Int} {u : Nat} {r : Transaction}
    (h : isLiveDeposit now u r = false) : contrib now u r = 0 := by
  simp [contrib, h]

theorem isLiveDeposit_false_of_status {now : Int} {u : Nat} {r : Transaction}
    (h : r.status ≠ TxStatus.completed) : isLiveDeposit now u r = false := by
  simp [isLiveDeposit, h]

theorem isLiveDeposit_false_of_type {now : Int} {u : Nat} {r : Transaction}
    (h : r.type ≠ TxType.deposit) : isLiveDeposit now u r = false := by
  simp [isLiveDeposit, h]

/-
C8: AddPoints.
-/

/-- The deposit lot AddPoints creates: `(deposit, completed)`,
`remaining_amount = amount`, `created_at = now`, `expires_at = now + ttlDays·24h`
when `ttlDays > 0` and absent otherwise. -/
def mkDeposit (now : Int) (rid u : Nat) (amount ttlDays : Int) : Transaction :=
  { id := rid, user_id := u, amount := amount, type := .deposit, status := .completed,
    expires_at := if 0 < ttlDays then some (now + ttlDays * 86400) else none,
    created_at := now, reservation_id := none, remaining_amount := amount }

/-- C8: for `amount > 0` and `ttlDays ≥ 0`, AddPoints succeeds, appends exactly the
one deposit lot described by `mkDeposit`, and returns that row (including its
`created_at = now`). A failing AddPoints is an aborted transaction and returns the
error with no state (no partial effect). -/
theorem AddPoints_spec (s : State) (now : Int) (rid u : Nat) (amount ttlDays : Int)
    (hamt : 0 < amount) (_httl : 0 ≤ ttlDays) :
    AddPoints s now rid u amount ttlDays
      = .ok (mkDeposit now rid u amount ttlDays,
             s ++ [mkDeposit now rid u amount ttlDays]) := by
  have hok : rowOk (mkDeposit now rid u amount ttlDays) = true := by
    simp [rowOk, check_amount, check_remaining_amount, mkDeposit]
    omega
  have hins : insertRow s (mkDeposit now rid u amount ttlDays)
      = .ok (s ++ [mkDeposit now rid u amount ttlDays]) := by
    unfold insertRow
    rw [if_pos hok]
  unfold AddPoints
  unfold mkDeposit at hins ⊢
  simp only [hins]

/-- Witness for C8 at user 7, amount 100, ttl 3 days from instant 0. -/
theorem AddPoints_spec_witness :
    (0 : Int) < 100 ∧ (0 : Int) ≤ 3
      ∧ AddPoints [] 0 1 7 100 3
          = .ok (mkDeposit 0 1 7 100 3, [mkDeposit 0 1 7 100 3])
      ∧ (mkDeposit 0 1 7 100 3).expires_at = some 259200 :=
  ⟨by decide, by decide, AddPoints_spec [] 0 1 7 100 3 (by decide) (by decide), by decide⟩

/-
C6: CommitReservation never changes GetBalance.
-/

/-- The row-level effect of CommitReservation on matched hold rows. -/
def commitFlip (r : Transaction) : Transaction :=
  { r with status := TxStatus.completed, type := TxType.withdrawal }

theorem CommitReservation_ok_elim {s s1 : State} {resId : Nat}
    (h : CommitReservation s resId = .ok s1) :
    s1 = s.map (fun r => if isHold resId r then commitFlip r else r)
      ∧ s.countP (isHold resId) ≠ 0 := by
  unfold CommitReservation at h
  cases hu : updateRows s (isHold resId)
      (fun r => { r with status := .completed, type := .withdrawal }) with
  | error e => rw [hu] at h; simp at h
  | ok s2 =>
    rw [hu] at h
    have h' : (if s.countP (isHold resId) = 0 then
          (Except.error LedgerErr.notFound : Except LedgerErr State)
        else Except.ok s2) = Except.ok s1 := h
    by_cases hcnt : s.countP (isHold resId) = 0
    · rw [if_pos hcnt] at h'
      simp at h'
    · rw [if_neg hcnt] at h'
      obtain ⟨rfl, -⟩ := updateRows_ok hu
      injection h' with h2
      exact ⟨h2.symm, hcnt⟩

/-- C6: a call to CommitReservation (successful or not) never changes the
GetBalance total of any user at any instant: committed rows stop being
`reserved` holds and become `withdrawal` rows, and neither shape passes the
live-deposit filter; a failed call leaves the state unchanged (the transaction
is rolled back). -/
theorem CommitReservation_preserves_GetBalance (s : State) (resId : Nat)
    (now : Int) (u : Nat) :
    (GetBalance (match CommitReservation s resId with
        | .ok s1 => s1
        | .error _ => s) now u).total_amount
      = (GetBalance s now u).total_amount := by
  cases hc : CommitReservation s resId with
  | error e => rfl
  | ok s1 =>
    obtain ⟨rfl, -⟩ := CommitReservation_ok_elim hc
    rw [total_eq_sum_contrib, total_eq_sum_contrib, List.map_map]
    congr 1
    apply List.map_congr_left
    intro r hr
    by_cases hh : isHold resId r = true
    · have hres : r.status = TxStatus.reserved := by
        simp [isHold] at hh
        exact hh.2
      simp only [Function.comp_apply, hh, if_true]
      rw [contrib_of_not_live (isLiveDeposit_false_of_type (by simp [commitFlip])),
        contrib_of_not_live (isLiveDeposit_false_of_status (by rw [hres]; simp))]
    · simp only [Function.comp_apply, if_neg hh]

/-
C5 (corrected): CommitReservation flips type and status in place but keeps
remaining_amount (it is NOT reset to 0).
-/

/-- A hold row of reservation 9 for user 7 over 50 points. -/
def c5hold : Transaction :=
  { id := 1, user_id := 7, amount := 50, type := .reserve, status := .reserved,
    expires_at := none, created_at := 0, reservation_id := some 9, remaining_amount := 50 }

/-- The row the commit of reservation 9 actually produces from `c5hold`: type and
status flipped, everything else retained, `remaining_amount` still 50. -/
def c5committed : Transaction :=
  { id := 1, user_id := 7, amount := 50, type := .withdrawal, status := .completed,
    expires_at := none, created_at := 0, reservation_id := some 9, remaining_amount := 50 }

/-- Counterexample to C5 as stated: committing reservation 9 succeeds, but the
resulting withdrawal row keeps `remaining_amount = 50`; it is not reset to 0 as
the claim asserts. -/
theorem CommitReservation_remaining_not_reset :
    CommitReservation [c5hold] 9 = .ok [c5committed]
      ∧ c5committed.remaining_amount ≠ 0 :=
  ⟨rfl, by decide⟩

/-- C5 (amended): a successful CommitReservation(R) found at least one row in
`status = reserved` with `reservation_id = R`, and transitions exactly those rows
in place to `type = withdrawal, status = completed`, retaining every other field —
`reservation_id`, `amount` and in particular `remaining_amount` (which stays equal
to the hold amount rather than being reset to 0); all other rows are untouched.
Such a row no longer passes the live-deposit filter, so it does not affect
balance. -/
theorem CommitReservation_flips_rows (s s1 : State) (resId : Nat)
    (h : CommitReservation s resId = .ok s1) :
    (∃ r ∈ s, isHold resId r = true)
      ∧ List.Forall₂ (fun r r1 =>
          if isHold resId r then r1 = commitFlip r else r1 = r) s s1 := by
  obtain ⟨rfl, hcnt⟩ := CommitReservation_ok_elim h
  constructor
  · simpa using List.countP_pos_iff.mp (Nat.pos_of_ne_zero hcnt)
  · rw [List.forall₂_map_right_iff]
    rw [List.forall₂_same]
    intro r hr
    by_cases hh : isHold resId r = true
    · simp [hh]
    · simp only [Bool.not_eq_true] at hh
      simp [hh]

/-- Witness for the amended C5 on the one-hold state: the hold flips to a
completed withdrawal row with `remaining_amount` kept at 50. -/
theorem CommitReservation_flips_rows_witness :
    CommitReservation [c5hold] 9 = .ok [commitFlip c5hold]
      ∧ ((∃ r ∈ [c5hold], isHold 9 r = true)
        ∧ List.Forall₂ (fun r r1 =>
            if isHold 9 r then r1 = commitFlip r else r1 = r)
          [c5hold] [commitFlip c5hold]) :=
  ⟨rfl, CommitReservation_flips_rows [c5hold] [commitFlip c5hold] 9 rfl⟩

/-
C7: committed and cancelled reservations are terminal.
-/

theorem isHold_update_remaining {resId : Nat} {r : Transaction} {a : Int} :
    isHold resId { r with remaining_amount := a } = isHold resId r := by
  simp [isHold]

/-- An update whose row function does not affect hold status preserves the
absence of hold rows. -/
theorem noHold_updateRows {s s' : State} {resId : Nat} {p : Transaction → Bool}
    {f : Transaction → Transaction}
    (hf : ∀ r, isHold resId (f r) = isHold resId r)
    (h : updateRows s p f = .ok s')
    (hno : ∀ r ∈ s, isHold resId r = false) : ∀ r ∈ s', isHold resId r = false := by
  obtain ⟨rfl, -⟩ := updateRows_ok h
  intro r hr
  obtain ⟨x, hx, rfl⟩ := List.mem_map.mp hr
  by_cases hb : p x = true
  · rw [if_pos hb, hf]
    exact hno x hx
  · rw [if_neg hb]
    exact hno x hx

/-- An update of all hold rows of R by a function that leaves no row a hold of R
clears R's holds from the state. -/
theorem noHold_after_clear {s s' : State} {resId : Nat}
    {f : Transaction → Transaction}
    (hf : ∀ r, isHold resId (f r) = false)
    (h : updateRows s (isHold resId) f = .ok s') :
    ∀ r ∈ s', isHold resId r = false := by
  obtain ⟨rfl, -⟩ := updateRows_ok h
  intro r hr
  obtain ⟨x, hx, rfl⟩ := List.mem_map.mp hr
  by_cases hb : isHold resId x = true
  · rw [if_pos hb]
    exact hf x
  · rw [if_neg hb]
    simpa using hb

theorem applyReturns_noHold (now : Int) (resId : Nat) :
    ∀ (rs : List (Nat × Int)) (t t' : State),
    applyReturns now t rs = .ok t' →
    (∀ r ∈ t, isHold resId r = false) → ∀ r ∈ t', isHold resId r = false
  | [], t, t', h, hno => by
    unfold applyReturns at h
    injection h with h2
    exact h2 ▸ hno
  | (hid, amt) :: rest, t, t', h, hno => by
    unfold applyReturns at h
    split at h
    · simp at h
    · split at h
      · exact applyReturns_noHold now resId rest t t' h hno
      · split at h
        · next t1 hup =>
          exact applyReturns_noHold now resId rest t1 t' h
            (noHold_updateRows (fun r => isHold_update_remaining) hup hno)
        · simp at h

/-- C7: after a successful CommitReservation or RollbackReservation of R — or for
any R that has no rows in `status = reserved` — both CommitReservation(R) and
RollbackReservation(R) fail with `not_found`; the failing call is an aborted
transaction, so the state is unchanged. -/
theorem reservation_states_terminal (s s1 : State) (now : Int) (resId : Nat)
    (h : CommitReservation s resId = .ok s1
      ∨ RollbackReservation s now resId = .ok s1
      ∨ (s1 = s ∧ ∀ r ∈ s, isHold resId r = false)) :
    CommitReservation s1 resId = .error .notFound
      ∧ RollbackReservation s1 now resId = .error .notFound := by
  have main : (∀ r ∈ s1, isHold resId r = false) →
      CommitReservation s1 resId = .error .notFound
        ∧ RollbackReservation s1 now resId = .error .notFound := by
    intro hno
    constructor
    · have hup := updateRows_isOk (s := s1) (p := isHold resId)
        (f := fun r => { r with status := TxStatus.completed, type := TxType.withdrawal })
        (fun r hr hp => absurd hp (by simp [hno r hr]))
      have hcnt : s1.countP (isHold resId) = 0 :=
        List.countP_eq_zero.mpr (fun r hr => by simp [hno r hr])
      unfold CommitReservation
      simp [hup, hcnt]
    · have hfil : s1.filter (isHold resId) = [] :=
        List.filter_eq_nil_iff.mpr (fun r hr => by simp [hno r hr])
      unfold RollbackReservation
      rw [hfil]
      rfl
  rcases h with hc | hrb | ⟨rfl, hno⟩
  · apply main
    obtain ⟨rfl, -⟩ := CommitReservation_ok_elim hc
    intro r hr
    obtain ⟨x, hx, rfl⟩ := List.mem_map.mp hr
    by_cases hp : isHold resId x = true
    · rw [if_pos hp]
      simp [isHold, commitFlip]
    · rw [if_neg hp]
      simpa using hp
  · apply main
    have h' : (if ((s.filter (isHold resId)).map (fun r => (r.id, r.amount))).isEmpty
          then (Except.error LedgerErr.notFound : Except LedgerErr State)
          else match updateRows s (isHold resId) (fun r => { r with status := .cancelled }) with
            | .error e => .error e
            | .ok s2 => applyReturns now s2
                ((s.filter (isHold resId)).map (fun r => (r.id, r.amount)))) = .ok s1 := hrb
    by_cases hemp : ((s.filter (isHold resId)).map (fun r => (r.id, r.amount))).isEmpty = true
    · rw [if_pos hemp] at h'
      simp at h'
    · rw [if_neg hemp] at h'
      cases hup : updateRows s (isHold resId) (fun r => { r with status := .cancelled }) with
      | error e => rw [hup] at h'; simp at h'
      | ok s2 =>
        rw [hup] at h'
        refine applyReturns_noHold now resId _ s2 s1 h' ?_
        exact noHold_after_clear (fun r => by simp [isHold]) hup
  · exact main hno

/-- Witness for C7 on the empty state: reservation 9 has no reserved rows, and
both commit and rollback fail with `not_found`. -/
theorem reservation_states_terminal_witness :
    CommitReservation [] 9 = .error .notFound
      ∧ RollbackReservation [] 0 9 = .error .notFound :=
  reservation_states_terminal [] [] 0 9 (Or.inr (Or.inr ⟨rfl, by simp⟩))

/-
C4: insufficient_funds exactly when the request exceeds the locked balance.
-/

theorem updateRows_error {s : State} {p : Transaction → Bool}
    {f : Transaction → Transaction} {e : LedgerErr}
    (h : updateRows s p f = .error e) : e = .checkViolation := by
  unfold updateRows at h
  split at h
  · simp at h
  · injection h with h2
    exact h2.symm

theorem insertRow_error {s : State} {r : Transaction} {e : LedgerErr}
    (h : insertRow s r = .error e) : e = .checkViolation := by
  unfold insertRow at h
  split at h
  · simp at h
  · injection h with h2
    exact h2.symm

/-- Zeta-free unfolding of WithdrawPoints. -/
theorem WithdrawPoints_eq (s : State) (now : Int) (wid u : Nat) (amount : Int) :
    WithdrawPoints s now wid u amount =
      (match fifoConsume ((sortByCreated (s.filter (isLiveDeposit now u))).map
          (fun r => (r.id, r.remaining_amount))) amount with
        | none => .error .insufficientFunds
        | some ds =>
          match applyDeducts s ds with
          | .ok s1 =>
            insertRow s1
              { id := wid, user_id := u, amount := amount, type := .withdrawal,
                status := .completed, expires_at := none, created_at := now,
                reservation_id := none, remaining_amount := 0 }
          | .error e => .error e) := rfl

/-- Zeta-free unfolding of ReservePoints. -/
theorem ReservePoints_eq (s : State) (now : Int) (ids : Nat → Nat) (resId u : Nat)
    (amount : Int) :
    ReservePoints s now ids resId u amount =
      (match fifoConsume ((sortByCreated (s.filter (isLiveDeposit now u))).map
          (fun r => (r.id, r.remaining_amount))) amount with
        | none => .error .insufficientFunds
        | some ds =>
          match applyReserves u resId now ids 0 s ds with
          | .ok s1 => .ok (resId, s1)
          | .error e => .error e) := rfl

/-- Zeta-free unfolding of RollbackReservation. -/
theorem RollbackReservation_eq (s : State) (now : Int) (resId : Nat) :
    RollbackReservation s now resId =
      (if ((s.filter (isHold resId)).map (fun r => (r.id, r.amount))).isEmpty
        then .error .notFound
        else match updateRows s (isHold resId)
            (fun r => { r with status := .cancelled }) with
          | .error e => .error e
          | .ok s1 => applyReturns now s1
              ((s.filter (isHold resId)).map (fun r => (r.id, r.amount)))) := rfl

theorem applyDeducts_ne_insufficient :
    ∀ (s : State) (ds : List (Nat × Int)),
    applyDeducts s ds ≠ .error .insufficientFunds
  | s, [] => by simp [applyDeducts]
  | s, (i, d) :: rest => by
    unfold applyDeducts
    cases hup : updateRows s (fun r => decide (r.id = i))
        (fun r => { r with remaining_amount := r.remaining_amount - d }) with
    | ok s1 =>
      exact applyDeducts_ne_insufficient s1 rest
    | error e =>
      simp [updateRows_error hup]

theorem applyReserves_ne_insufficient (u resId : Nat) (now : Int) (ids : Nat → Nat) :
    ∀ (ds : List (Nat × Int)) (k : Nat) (t : State),
    applyReserves u resId now ids k t ds ≠ .error .insufficientFunds
  | [], _, t => by simp [applyReserves]
  | (i, d) :: rest, k, t => by
    unfold applyReserves
    cases hins : insertRow t (mkHold (ids k) u d resId now) with
    | error e =>
      simp [insertRow_error hins]
    | ok t1 =>
      show (match updateRows t1 (fun r => decide (r.id = i))
          (fun r => { r with remaining_amount := r.remaining_amount - d }) with
        | .error e => (.error e : Except LedgerErr State)
        | .ok t2 => applyReserves u resId now ids (k + 1) t2 rest)
          ≠ .error .insufficientFunds
      cases hup : updateRows t1 (fun r => decide (r.id = i))
          (fun r => { r with remaining_amount := r.remaining_amount - d }) with
      | error e =>
        simp [updateRows_error hup]
      | ok t2 =>
        exact applyReserves_ne_insufficient u resId now ids rest (k + 1) t2

/-- The total the debit operations compute over the locked, sorted live lots
equals the GetBalance total. -/
theorem totalAvailable_eq_getBalance (s : State) (now : Int) (u : Nat) :
    (((sortByCreated (s.filter (isLiveDeposit now u))).map
        (fun r => (r.id, r.remaining_amount))).map (·.2)).sum
      = (GetBalance s now u).total_amount := by
  rw [List.map_map]
  exact sum_map_sortByCreated _ _

/-- C4: for a positive amount A, WithdrawPoints and ReservePoints fail with
`insufficient_funds` exactly when A exceeds the sum of `remaining_amount` over the
user's live deposit lots as observed under the acquired row locks (the GetBalance
total of the same snapshot); a failing call is an aborted transaction, so it
mutates or inserts nothing. -/
theorem debit_insufficient_iff (s : State) (now : Int) (wid u resId : Nat)
    (ids : Nat → Nat) (A : Int) (_hA : 0 < A) :
    (WithdrawPoints s now wid u A = .error .insufficientFunds
        ↔ (GetBalance s now u).total_amount < A)
      ∧ (ReservePoints s now ids resId u A = .error .insufficientFunds
        ↔ (GetBalance s now u).total_amount < A) := by
  have htot := totalAvailable_eq_getBalance s now u
  have hnone : (GetBalance s now u).total_amount < A →
      fifoConsume ((sortByCreated (s.filter (isLiveDeposit now u))).map
        (fun r => (r.id, r.remaining_amount))) A = none := by
    intro hlt
    unfold fifoConsume
    rw [if_pos (htot ▸ hlt)]
  have hsome : ¬ (GetBalance s now u).total_amount < A →
      fifoConsume ((sortByCreated (s.filter (isLiveDeposit now u))).map
          (fun r => (r.id, r.remaining_amount))) A
        = some (fifoDeduct ((sortByCreated (s.filter (isLiveDeposit now u))).map
          (fun r => (r.id, r.remaining_amount))) A) := by
    intro hge
    unfold fifoConsume
    rw [if_neg (htot ▸ hge)]
  constructor
  · constructor
    · intro h
      by_contra hge
      rw [WithdrawPoints_eq, hsome hge] at h
      have h2 : (match applyDeducts s (fifoDeduct ((sortByCreated
            (s.filter (isLiveDeposit now u))).map
            (fun r => (r.id, r.remaining_amount))) A) with
          | .ok s1 =>
            insertRow s1
              { id := wid, user_id := u, amount := A, type := .withdrawal,
                status := .completed, expires_at := none, created_at := now,
                reservation_id := none, remaining_amount := 0 }
          | .error e => .error e) = .error .insufficientFunds := h
      cases hap : applyDeducts s (fifoDeduct ((sortByCreated
          (s.filter (isLiveDeposit now u))).map
          (fun r => (r.id, r.remaining_amount))) A) with
      | ok s1 =>
        rw [hap] at h2
        have h3 : insertRow s1
            { id := wid, user_id := u, amount := A, type := .withdrawal,
              status := .completed, expires_at := none, created_at := now,
              reservation_id := none, remaining_amount := 0 }
            = .error .insufficientFunds := h2
        exact absurd (insertRow_error h3) (by decide)
      | error e =>
        rw [hap] at h2
        have h3 : (Except.error e : Except LedgerErr State)
            = .error .insufficientFunds := h2
        injection h3 with h4
        exact applyDeducts_ne_insufficient s _ (by rw [hap, h4])
    · intro hlt
      rw [WithdrawPoints_eq, hnone hlt]
  · constructor
    · intro h
      by_contra hge
      rw [ReservePoints_eq, hsome hge] at h
      have h2 : (match applyReserves u resId now ids 0 s (fifoDeduct ((sortByCreated
            (s.filter (isLiveDeposit now u))).map
            (fun r => (r.id, r.remaining_amount))) A) with
          | .ok s1 => (.ok (resId, s1) : Except LedgerErr (Nat × State))
          | .error e => .error e) = .error .insufficientFunds := h
      cases hap : applyReserves u resId now ids 0 s (fifoDeduct ((sortByCreated
          (s.filter (isLiveDeposit now u))).map
          (fun r => (r.id, r.remaining_amount))) A) with
      | ok s1 =>
        rw [hap] at h2
        have h3 : (Except.ok (resId, s1) : Except LedgerErr (Nat × State))
            = .error .insufficientFunds := h2
        simp at h3
      | error e =>
        rw [hap] at h2
        have h3 : (Except.error e : Except LedgerErr (Nat × State))
            = .error .insufficientFunds := h2
        injection h3 with h4
        exact applyReserves_ne_insufficient u resId now ids _ 0 s (by rw [hap, h4])
    · intro hlt
      rw [ReservePoints_eq, hnone hlt]

/-- Witness for C4: user 7 owns one live lot of 70 at instant 0; a debit of 100
is refused as insufficient by both operations. -/
def c4lot : Transaction :=
  { id := 1, user_id := 7, amount := 70, type := .deposit, status := .completed,
    expires_at := none, created_at := 0, reservation_id := none, remaining_amount := 70 }

theorem debit_insufficient_iff_witness :
    (0 : Int) < 100
      ∧ ((WithdrawPoints [c4lot] 0 2 7 100 = .error .insufficientFunds
          ↔ (GetBalance [c4lot] 0 7).total_amount < 100)
        ∧ (ReservePoints [c4lot] 0 (fun n => 100 + n) 9 7 100
            = .error .insufficientFunds
          ↔ (GetBalance [c4lot] 0 7).total_amount < 100)) :=
  ⟨by decide, debit_insufficient_iff [c4lot] 0 2 7 9 (fun n => 100 + n) 100 (by decide)⟩

/-
C9: rollback with no live deposit lot to credit still succeeds.
-/

theorem liveReturnTarget_parts {now : Int} {u : Nat} {r : Transaction}
    (h : liveReturnTarget now u r = true) :
    r.user_id = u ∧ r.type = TxType.deposit ∧ r.status = TxStatus.completed
      ∧ expiresOk now r = true := by
  simp [liveReturnTarget] at h
  tauto

theorem map_id_update {s : State} {p : Transaction → Bool}
    {f : Transaction → Transaction} (hf : ∀ r, (f r).id = r.id) :
    (s.map (fun r => if p r then f r else r)).map (·.id) = s.map (·.id) := by
  rw [List.map_map]
  apply List.map_congr_left
  intro x _
  by_cases hb : p x = true
  · simp [hb, hf]
  · simp [hb]

/-- When every hold in the list belongs to user `u` and user `u` owns no
completed, unexpired deposit row, every per-hold return UPDATE matches zero rows
and the loop is a no-op; rows of other users are irrelevant because the return
subquery filters by the hold's own `user_id` (looked up by primary key). -/
theorem applyReturns_no_target (now : Int) (u : Nat) :
    ∀ (rs : List (Nat × Int)) (t : State),
    (t.map (·.id)).Nodup →
    (∀ p ∈ rs, ∃ h ∈ t, h.id = p.1 ∧ h.user_id = u) →
    (∀ r ∈ t, r.user_id = u → ¬(r.type = TxType.deposit ∧ r.status = TxStatus.completed
        ∧ expiresOk now r = true)) →
    applyReturns now t rs = .ok t
  | [], _, _, _, _ => rfl
  | (hid, amt) :: rest, t, hnd, hex, hno => by
    unfold applyReturns
    obtain ⟨h0, hh0, h0id0, h0u⟩ := hex (hid, amt) (List.mem_cons_self _ _)
    have h0id : h0.id = hid := h0id0
    have hfind0 : t.find? (fun x => decide (x.id = h0.id)) = some h0 :=
      find?_eq_of_nodup t h0 hnd hh0
    rw [h0id] at hfind0
    rw [hfind0]
    have hfil : t.filter (liveReturnTarget now h0.user_id) = [] := by
      rw [h0u, List.filter_eq_nil_iff]
      intro r hr hlrt
      obtain ⟨hru, hrt, hrs2, hre⟩ := liveReturnTarget_parts hlrt
      exact hno r hr hru ⟨hrt, hrs2, hre⟩
    have hsort : (sortByCreated (t.filter (liveReturnTarget now h0.user_id))).head?
        = none := by
      rw [hfil]
      rfl
    show (match (sortByCreated (t.filter (liveReturnTarget now h0.user_id))).head? with
      | none => applyReturns now t rest
      | some tgt =>
        match updateRows t (fun r => decide (r.id = tgt.id))
            (fun r => { r with remaining_amount := r.remaining_amount + amt }) with
        | .ok t1 => applyReturns now t1 rest
        | .error e => (.error e : Except LedgerErr State)) = .ok t
    rw [hsort]
    exact applyReturns_no_target now u rest t hnd
      (fun p hp => hex p (List.mem_cons_of_mem _ hp)) hno

/-- C9: when reservation R has hold rows, all owned by user `u`, and that user
owns no completed, unexpired deposit lot to receive the returned points (other
users may well own live lots), RollbackReservation still reports success: the
holds are flipped to `status = cancelled`, each per-hold return UPDATE matches
zero rows, and the returned amounts are credited nowhere. The `rowOk` hypothesis
is the schema CHECK every stored row satisfies; the `Nodup` hypothesis is the
primary key, under which the per-hold `SELECT user_id WHERE id = $1` lookup
returns the hold row itself. -/
theorem RollbackReservation_no_target (s : State) (now : Int) (resId u : Nat)
    (hnd : (s.map (·.id)).Nodup)
    (hValid : ∀ r ∈ s, isHold resId r = true → rowOk r = true)
    (hhold : ∃ r ∈ s, isHold resId r = true)
    (huser : ∀ r ∈ s, isHold resId r = true → r.user_id = u)
    (hnolot : ∀ r ∈ s, r.user_id = u →
        ¬(r.type = TxType.deposit ∧ r.status = TxStatus.completed
          ∧ expiresOk now r = true)) :
    RollbackReservation s now resId
      = .ok (s.map (fun r =>
          if isHold resId r then { r with status := TxStatus.cancelled } else r)) := by
  rw [RollbackReservation_eq]
  have hne : s.filter (isHold resId) ≠ [] := by
    obtain ⟨r, hr, hh⟩ := hhold
    intro hnil
    have := List.filter_eq_nil_iff.mp hnil r hr
    simp [hh] at this
  have hemp : ¬(((s.filter (isHold resId)).map (fun r => (r.id, r.amount))).isEmpty
      = true) := by
    simp only [List.isEmpty_iff]
    exact fun h => hne (List.map_eq_nil_iff.mp h)
  rw [if_neg hemp]
  have hcancel := updateRows_isOk (s := s) (p := isHold resId)
      (f := fun r => { r with status := TxStatus.cancelled })
      (fun r hr hp => by
        have h1 : rowOk { r with status := TxStatus.cancelled } = rowOk r := by
          simp [rowOk, check_amount, check_remaining_amount]
        rw [h1]
        exact hValid r hr hp)
  rw [hcancel]
  show applyReturns now
      (s.map fun r => if isHold resId r then { r with status := TxStatus.cancelled } else r)
      ((s.filter (isHold resId)).map (fun r => (r.id, r.amount)))
    = .ok (s.map fun r =>
        if isHold resId r then { r with status := TxStatus.cancelled } else r)
  apply applyReturns_no_target now u
  · rw [map_id_update (p := isHold resId)
      (f := fun r => { r with status := TxStatus.cancelled }) (fun r => rfl)]
    exact hnd
  · intro p hp
    obtain ⟨r, hr, rfl⟩ := List.mem_map.mp hp
    have hrf := List.mem_filter.mp hr
    refine ⟨if isHold resId r then { r with status := TxStatus.cancelled } else r,
      List.mem_map_of_mem _ hrf.1, ?_, ?_⟩
    · rw [if_pos hrf.2]
    · rw [if_pos hrf.2]
      exact huser r hrf.1 hrf.2
  · intro r' hr'
    obtain ⟨x, hx, rfl⟩ := List.mem_map.mp hr'
    by_cases hb : isHold resId x = true
    · rw [if_pos hb]
      intro _ hcon
      exact absurd hcon.2.1 (by simp)
    · rw [if_neg hb]
      exact hnolot x hx
/-- The hold row of the C9 demonstration state: reservation 9, user 7. -/
def c9hold : Transaction :=
  { id := 1, user_id := 7, amount := 50, type := .reserve, status := .reserved,
    expires_at := none, created_at := 0, reservation_id := some 9, remaining_amount := 50 }

/-- A live deposit lot of a different user (8), present while user 7's
reservation is rolled back: it must not receive user 7's returned points. -/
def c9other : Transaction :=
  { id := 2, user_id := 8, amount := 30, type := .deposit, status := .completed,
    expires_at := none, created_at := 0, reservation_id := none, remaining_amount := 30 }

/-- Witness for C9 on a multi-user state: reservation 9's hold belongs to user 7,
who owns no live deposit lot, while user 8 does own one; the rollback succeeds,
cancels the hold, and credits nothing (user 8's lot is untouched). -/
theorem RollbackReservation_no_target_witness :
    (([c9hold, c9other].map (·.id)).Nodup)
      ∧ (∀ r ∈ [c9hold, c9other], isHold 9 r = true → rowOk r = true)
      ∧ (∃ r ∈ [c9hold, c9other], isHold 9 r = true)
      ∧ (∀ r ∈ [c9hold, c9other], isHold 9 r = true → r.user_id = 7)
      ∧ (∀ r ∈ [c9hold, c9other], r.user_id = 7 →
          ¬(r.type = TxType.deposit ∧ r.status = TxStatus.completed
            ∧ expiresOk 0 r = true))
      ∧ RollbackReservation [c9hold, c9other] 0 9
          = .ok ([c9hold, c9other].map (fun r =>
              if isHold 9 r then { r with status := TxStatus.cancelled } else r)) :=
  ⟨by decide, by decide, by decide, by decide, by decide,
    RollbackReservation_no_target [c9hold, c9other] 0 9 7 (by decide) (by decide)
      (by decide) (by decide) (by decide)⟩

/-
C3: the check_remaining_amount invariant is preserved by every operation.
-/

theorem RemInv_applyDeducts :
    ∀ (ds : List (Nat × Int)) (s s' : State),
    applyDeducts s ds = .ok s' → RemInv s → RemInv s'
  | [], s, s', h, hs => by
    unfold applyDeducts at h
    injection h with h2
    exact h2 ▸ hs
  | (i, d) :: rest, s, s', h, hs => by
    unfold applyDeducts at h
    split at h
    · next s1 hup =>
      exact RemInv_applyDeducts rest s1 s' h (RemInv_updateRows hs hup)
    · simp at h

theorem RemInv_applyReserves (u resId : Nat) (now : Int) (ids : Nat → Nat) :
    ∀ (ds : List (Nat × Int)) (k : Nat) (t s' : State),
    applyReserves u resId now ids k t ds = .ok s' → RemInv t → RemInv s'
  | [], _, t, s', h, hs => by
    unfold applyReserves at h
    injection h with h2
    exact h2 ▸ hs
  | (i, d) :: rest, k, t, s', h, hs => by
    unfold applyReserves at h
    split at h
    · simp at h
    · next t1 hins =>
      split at h
      · simp at h
      · next t2 hup =>
        exact RemInv_applyReserves u resId now ids rest (k + 1) t2 s' h
          (RemInv_updateRows (RemInv_insertRow hs hins) hup)

theorem RemInv_applyReturns (now : Int) :
    ∀ (rs : List (Nat × Int)) (t t' : State),
    applyReturns now t rs = .ok t' → RemInv t → RemInv t'
  | [], t, t', h, hs => by
    unfold applyReturns at h
    injection h with h2
    exact h2 ▸ hs
  | (hid, amt) :: rest, t, t', h, hs => by
    unfold applyReturns at h
    split at h
    · simp at h
    · split at h
      · exact RemInv_applyReturns now rest t t' h hs
      · split at h
        · next t1 hup =>
          exact RemInv_applyReturns now rest t1 t' h (RemInv_updateRows hs hup)
        · simp at h

/-- C3: starting from any state in which every row satisfies
`0 ≤ remaining_amount ≤ amount` (the schema `check_remaining_amount`), every
state-changing ledger operation that succeeds preserves it; a failing operation
aborts the transaction and leaves the state untouched, and `GetBalance` and
`GetExpiringPoints` are pure reads that change nothing. In particular no
successful Withdraw or Reserve drives a lot below 0 and no Rollback drives a lot
above its `amount`: an UPDATE that would is refused by the CHECK constraint and
aborts the operation. -/
theorem ledger_ops_preserve_check (s : State) (hInv : RemInv s) :
    (∀ (now : Int) (rid u : Nat) (amount ttlDays : Int) (r : Transaction) (s' : State),
        AddPoints s now rid u amount ttlDays = .ok (r, s') → RemInv s')
    ∧ (∀ (now : Int) (wid u : Nat) (amount : Int) (s' : State),
        WithdrawPoints s now wid u amount = .ok s' → RemInv s')
    ∧ (∀ (now : Int) (ids : Nat → Nat) (resId u : Nat) (amount : Int)
          (out : Nat) (s' : State),
        ReservePoints s now ids resId u amount = .ok (out, s') → RemInv s')
    ∧ (∀ (resId : Nat) (s' : State),
        CommitReservation s resId = .ok s' → RemInv s')
    ∧ (∀ (now : Int) (resId : Nat) (s' : State),
        RollbackReservation s now resId = .ok s' → RemInv s') := by
  refine ⟨?_, ?_, ?_, ?_, ?_⟩
  · intro now rid u amount ttlDays r s' h
    rw [show AddPoints s now rid u amount ttlDays
        = (match insertRow s (mkDeposit now rid u amount ttlDays) with
          | .ok s1 => .ok ((mkDeposit now rid u amount ttlDays), s1)
          | .error e => .error e) from rfl] at h
    cases hins : insertRow s (mkDeposit now rid u amount ttlDays) with
    | error e => rw [hins] at h; simp at h
    | ok s1 =>
      rw [hins] at h
      have h2 : (Except.ok ((mkDeposit now rid u amount ttlDays), s1)
          : Except LedgerErr (Transaction × State)) = .ok (r, s') := h
      simp at h2
      obtain ⟨-, h3⟩ := h2
      exact h3 ▸ RemInv_insertRow hInv hins
  · intro now wid u amount s' h
    rw [WithdrawPoints_eq] at h
    cases hcons : fifoConsume ((sortByCreated (s.filter (isLiveDeposit now u))).map
        (fun r => (r.id, r.remaining_amount))) amount with
    | none => rw [hcons] at h; simp at h
    | some ds =>
      rw [hcons] at h
      have h2 : (match applyDeducts s ds with
          | .ok s1 =>
            insertRow s1
              { id := wid, user_id := u, amount := amount, type := .withdrawal,
                status := .completed, expires_at := none, created_at := now,
                reservation_id := none, remaining_amount := 0 }
          | .error e => .error e) = .ok s' := h
      cases hap : applyDeducts s ds with
      | error e => rw [hap] at h2; simp at h2
      | ok s1 =>
        rw [hap] at h2
        have h3 : insertRow s1
            { id := wid, user_id := u, amount := amount, type := .withdrawal,
              status := .completed, expires_at := none, created_at := now,
              reservation_id := none, remaining_amount := 0 } = .ok s' := h2
        exact RemInv_insertRow (RemInv_applyDeducts ds s s1 hap hInv) h3
  · intro now ids resId u amount out s' h
    rw [ReservePoints_eq] at h
    cases hcons : fifoConsume ((sortByCreated (s.filter (isLiveDeposit now u))).map
        (fun r => (r.id, r.remaining_amount))) amount with
    | none => rw [hcons] at h; simp at h
    | some ds =>
      rw [hcons] at h
      have h2 : (match applyReserves u resId now ids 0 s ds with
          | .ok s1 => (.ok (resId, s1) : Except LedgerErr (Nat × State))
          | .error e => .error e) = .ok (out, s') := h
      cases hap : applyReserves u resId now ids 0 s ds with
      | error e => rw [hap] at h2; simp at h2
      | ok s1 =>
        rw [hap] at h2
        have h3 : (Except.ok (resId, s1) : Except LedgerErr (Nat × State))
            = .ok (out, s') := h2
        simp at h3
        obtain ⟨-, h4⟩ := h3
        exact h4 ▸ RemInv_applyReserves u resId now ids ds 0 s s1 hap hInv
  · intro resId s' h
    obtain ⟨rfl, -⟩ := CommitReservation_ok_elim h
    intro r hr
    obtain ⟨x, hx, rfl⟩ := List.mem_map.mp hr
    by_cases hb : isHold resId x = true
    · rw [if_pos hb]
      simpa [commitFlip] using hInv x hx
    · rw [if_neg hb]
      exact hInv x hx
  · intro now resId s' h
    rw [RollbackReservation_eq] at h
    by_cases hemp : ((s.filter (isHold resId)).map (fun r => (r.id, r.amount))).isEmpty
        = true
    · rw [if_pos hemp] at h
      simp at h
    · rw [if_neg hemp] at h
      cases hup : updateRows s (isHold resId)
          (fun r => { r with status := .cancelled }) with
      | error e => rw [hup] at h; simp at h
      | ok s1 =>
        rw [hup] at h
        have h2 : applyReturns now s1
            ((s.filter (isHold resId)).map (fun r => (r.id, r.amount))) = .ok s' := h
        exact RemInv_applyReturns now _ s1 s' h2 (RemInv_updateRows hInv hup)

/-- Witness for C3 at the empty state, which satisfies the invariant. -/
theorem ledger_ops_preserve_check_witness :
    RemInv ([] : State)
      ∧ (∀ (now : Int) (rid u : Nat) (amount ttlDays : Int) (r : Transaction)
            (s' : State),
          AddPoints [] now rid u amount ttlDays = .ok (r, s') → RemInv s')
      ∧ (∀ (now : Int) (wid u : Nat) (amount : Int) (s' : State),
          WithdrawPoints [] now wid u amount = .ok s' → RemInv s')
      ∧ (∀ (now : Int) (ids : Nat → Nat) (resId u : Nat) (amount : Int)
            (out : Nat) (s' : State),
          ReservePoints [] now ids resId u amount = .ok (out, s') → RemInv s')
      ∧ (∀ (resId : Nat) (s' : State),
          CommitReservation [] resId = .ok s' → RemInv s')
      ∧ (∀ (now : Int) (resId : Nat) (s' : State),
          RollbackReservation [] now resId = .ok s' → RemInv s') :=
  ⟨by simp [RemInv], ledger_ops_preserve_check [] (by simp [RemInv])⟩

/-
C2: ReservePoints followed by a successful RollbackReservation restores balance.
-/

/-- Two rows that agree on every field except the two amounts: the shape an
update of `remaining_amount` preserves. -/
def ShapedLike (r' r : Transaction) : Prop :=
  r'.id = r.id ∧ r'.user_id = r.user_id ∧ r'.type = r.type ∧ r'.status = r.status
    ∧ r'.expires_at = r.expires_at ∧ r'.reservation_id = r.reservation_id

theorem ShapedLike_refl (r : Transaction) : ShapedLike r r :=
  ⟨rfl, rfl, rfl, rfl, rfl, rfl⟩

theorem ShapedLike_trans {a b c : Transaction}
    (h1 : ShapedLike a b) (h2 : ShapedLike b c) : ShapedLike a c :=
  ⟨h1.1.trans h2.1, h1.2.1.trans h2.2.1, h1.2.2.1.trans h2.2.2.1,
    h1.2.2.2.1.trans h2.2.2.2.1, h1.2.2.2.2.1.trans h2.2.2.2.2.1,
    h1.2.2.2.2.2.trans h2.2.2.2.2.2⟩

theorem expiresOk_congr {now : Int} {a b : Transaction}
    (h : a.expires_at = b.expires_at) : expiresOk now a = expiresOk now b := by
  unfold expiresOk
  rw [h]

theorem isLiveDeposit_parts {now : Int} {u : Nat} {r : Transaction}
    (h : isLiveDeposit now u r = true) :
    r.user_id = u ∧ r.type = TxType.deposit ∧ r.status = TxStatus.completed
      ∧ 0 < r.remaining_amount ∧ expiresOk now r = true := by
  simp [isLiveDeposit] at h
  tauto

/-- A row with the live-deposit field shape and non-negative remainder
contributes exactly its remainder (also when the remainder is 0). -/
theorem contrib_eq_remaining {now : Int} {u : Nat} {r : Transaction}
    (hu : r.user_id = u) (ht : r.type = TxType.deposit)
    (hst : r.status = TxStatus.completed) (he : expiresOk now r = true)
    (hr : 0 ≤ r.remaining_amount) :
    contrib now u r = r.remaining_amount := by
  unfold contrib
  by_cases hl : isLiveDeposit now u r = true
  · rw [if_pos hl]
  · rw [if_neg hl]
    have h0 : ¬(0 < r.remaining_amount) := fun h0 =>
      hl (by simp [isLiveDeposit, hu, ht, hst, he, h0])
    omega

theorem filter_map_map_update {α : Type} {g : Transaction → Transaction}
    {q : Transaction → Bool} {h : Transaction → α} {p : Transaction → Bool}
    (hq : ∀ r, q (if p r then g r else r) = q r)
    (hh : ∀ r, q r = true → h (if p r then g r else r) = h r) :
    ∀ s : State,
    ((s.map (fun r => if p r then g r else r)).filter q).map h = (s.filter q).map h
  | [] => rfl
  | a :: t => by
    have ih := filter_map_map_update hq hh t
    simp only [List.map_cons, List.filter_cons, hq a]
    by_cases hqa : q a = true
    · rw [if_pos hqa, if_pos hqa]
      simp only [List.map_cons, ih, hh a hqa]
    · rw [if_neg hqa, if_neg hqa]
      exact ih

/-- The cancel step of a rollback changes no balance: a hold is invisible to the
live-deposit filter both as `reserved` and as `cancelled`. -/
theorem sum_contrib_cancel (now : Int) (u resId : Nat) (s : State) :
    ((s.map (fun r =>
        if isHold resId r then { r with status := TxStatus.cancelled } else r)).map
      (contrib now u)).sum = (s.map (contrib now u)).sum := by
  rw [List.map_map]
  apply congrArg
  apply List.map_congr_left
  intro r _
  by_cases hb : isHold resId r = true
  · have hres : r.status = TxStatus.reserved := by
      simp [isHold] at hb
      exact hb.2
    simp only [Function.comp_apply, if_pos hb]
    rw [contrib_of_not_live (isLiveDeposit_false_of_status (by simp)),
      contrib_of_not_live (isLiveDeposit_false_of_status (by rw [hres]; simp))]
  · simp only [Function.comp_apply, if_neg hb]

theorem applyReserves_spec (u resId : Nat) (now : Int) (ids : Nat → Nat)
    (hinj : ∀ a b, ids a = ids b → a = b) :
    ∀ (ds : List (Nat × Int)) (k : Nat) (t s2 : State),
    applyReserves u resId now ids k t ds = .ok s2 →
    (t.map (·.id)).Nodup →
    RemInv t →
    (∀ n, k ≤ n → ids n ∉ t.map (·.id)) →
    (∀ p ∈ ds, ∃ r ∈ t, r.id = p.1 ∧ isLiveDeposit now u r = true) →
    (ds.map (·.1)).Nodup →
    (s2.map (contrib now u)).sum = (t.map (contrib now u)).sum - (ds.map (·.2)).sum
      ∧ RemInv s2
      ∧ (s2.map (·.id)).Nodup
      ∧ (∀ r ∈ t, ∃ r' ∈ s2, ShapedLike r' r)
      ∧ (s2.filter (isHold resId)).map (fun r => (r.user_id, r.amount))
          = (t.filter (isHold resId)).map (fun r => (r.user_id, r.amount))
            ++ ds.map (fun p => (u, p.2))
  | [], k, t, s2, h, hnd, hinv, hfresh, hds, hdsnd => by
    unfold applyReserves at h
    injection h with h2
    subst h2
    exact ⟨by simp, hinv, hnd, fun r hr => ⟨r, hr, ShapedLike_refl r⟩, by simp⟩
  | (i, d) :: rest, k, t, s2, h, hnd, hinv, hfresh, hds, hdsnd => by
    unfold applyReserves at h
    split at h
    · simp at h
    · next t1 hins =>
      split at h
      · simp at h
      · next t2 hup =>
        obtain ⟨rfl, hckIns⟩ := insertRow_ok hins
        obtain ⟨ri, hri, hriid0, hrilive⟩ := hds (i, d) (List.mem_cons_self _ _)
        have hriid : ri.id = i := hriid0
        have hidk_not : ids k ∉ t.map (·.id) := hfresh k (le_refl k)
        have hi_mem : i ∈ t.map (·.id) := hriid ▸ List.mem_map_of_mem (·.id) hri
        have hnd1 : (((t ++ [mkHold (ids k) u d resId now])).map (·.id)).Nodup := by
          rw [List.map_append, List.nodup_append]
          refine ⟨hnd, by simp, ?_⟩
          intro a ha hb
          simp [mkHold] at hb
          exact hidk_not (hb ▸ ha)
        obtain ⟨rfl, hckUp⟩ := updateRows_ok hup
        simp only [List.map_cons, List.nodup_cons] at hdsnd
        have hnd2 : (((t ++ [mkHold (ids k) u d resId now]).map
            (fun r => if decide (r.id = i) then
              { r with remaining_amount := r.remaining_amount - d } else r)).map
            (·.id)).Nodup := by
          rw [map_id_update (p := fun r => decide (r.id = i))
            (f := fun r => { r with remaining_amount := r.remaining_amount - d })
            (fun r => rfl)]
          exact hnd1
        have hinv2 := RemInv_updateRows (RemInv_insertRow hinv hins) hup
        have hfresh2 : ∀ n, k + 1 ≤ n →
            ids n ∉ ((t ++ [mkHold (ids k) u d resId now]).map
              (fun r => if decide (r.id = i) then
                { r with remaining_amount := r.remaining_amount - d } else r)).map
              (·.id) := by
          intro n hn
          rw [map_id_update (p := fun r => decide (r.id = i))
            (f := fun r => { r with remaining_amount := r.remaining_amount - d })
            (fun r => rfl), List.map_append, List.mem_append]
          rintro (hmem | hmem)
          · exact hfresh n (by omega) hmem
          · simp [mkHold] at hmem
            have := hinj n k hmem
            omega
        have hds2 : ∀ p ∈ rest,
            ∃ r ∈ (t ++ [mkHold (ids k) u d resId now]).map
              (fun r => if decide (r.id = i) then
                { r with remaining_amount := r.remaining_amount - d } else r),
              r.id = p.1 ∧ isLiveDeposit now u r = true := by
          intro p hp
          obtain ⟨r, hr, hrid, hrl⟩ := hds p (List.mem_cons_of_mem _ hp)
          have hpne : p.1 ≠ i := fun he =>
            hdsnd.1 (he ▸ List.mem_map_of_mem (·.1) hp)
          have hrne : ¬(decide (r.id = i) = true) := by simp [hrid, hpne]
          refine ⟨r, ?_, hrid, hrl⟩
          have hr1 : r ∈ t ++ [mkHold (ids k) u d resId now] :=
            List.mem_append_left _ hr
          have hmm := List.mem_map_of_mem
            (fun x => if decide (x.id = i) then
              { x with remaining_amount := x.remaining_amount - d } else x) hr1
          simpa [hrne] using hmm
        obtain ⟨ihb, ihinv, ihnd, ihframe, ihfil⟩ :=
          applyReserves_spec u resId now ids hinj rest (k + 1) _ s2 h hnd2 hinv2
            hfresh2 hds2 hdsnd.2
        have hri1 : ri ∈ t ++ [mkHold (ids k) u d resId now] :=
          List.mem_append_left _ hri
        have hstep := sum_map_update_one (g := contrib now u)
          (t ++ [mkHold (ids k) u d resId now]) i
          (fun r => { r with remaining_amount := r.remaining_amount - d })
          ri hnd1 hri1 hriid
        have hsum1 : ((t ++ [mkHold (ids k) u d resId now]).map
            (contrib now u)).sum = (t.map (contrib now u)).sum := by
          rw [List.map_append, List.sum_append]
          have hz : contrib now u (mkHold (ids k) u d resId now) = 0 :=
            contrib_of_not_live (isLiveDeposit_false_of_type (by simp [mkHold]))
          simp [hz]
        obtain ⟨hru, hrt, hrs', hrpos, hre⟩ := isLiveDeposit_parts hrilive
        have hcri : contrib now u ri = ri.remaining_amount :=
          contrib_eq_remaining hru hrt hrs' hre (le_of_lt hrpos)
        have hckd : rowOk { ri with remaining_amount := ri.remaining_amount - d }
            = true := hckUp ri hri1 (by simp [hriid])
        have hcdec : contrib now u
            { ri with remaining_amount := ri.remaining_amount - d }
            = ri.remaining_amount - d :=
          contrib_eq_remaining hru hrt hrs' hre (rowOk_rem hckd).1
        have hstep' : ((((t ++ [mkHold (ids k) u d resId now])).map
            (fun r => if decide (r.id = i) then
              { r with remaining_amount := r.remaining_amount - d } else r)).map
            (contrib now u)).sum
            = ((t ++ [mkHold (ids k) u d resId now]).map (contrib now u)).sum
              - contrib now u ri
              + contrib now u { ri with
                  remaining_amount := ri.remaining_amount - d } := hstep
        have hshape : ∀ x : Transaction,
            ShapedLike ((fun x => if decide (x.id = i) then
              { x with remaining_amount := x.remaining_amount - d } else x) x) x := by
          intro x
          by_cases hb : decide (x.id = i) = true
          · simp only [hb, if_true]
            exact ⟨rfl, rfl, rfl, rfl, rfl, rfl⟩
          · simp only [if_neg hb]
            exact ShapedLike_refl x
        refine ⟨?_, ihinv, ihnd, ?_, ?_⟩
        · rw [ihb, hstep', hsum1, hcri, hcdec]
          simp only [List.map_cons, List.sum_cons]
          omega
        · intro r hr
          have hr1 : r ∈ t ++ [mkHold (ids k) u d resId now] :=
            List.mem_append_left _ hr
          have hmem2 := List.mem_map_of_mem
            (fun x => if decide (x.id = i) then
              { x with remaining_amount := x.remaining_amount - d } else x) hr1
          obtain ⟨r'', hr'', hsl⟩ := ihframe _ hmem2
          exact ⟨r'', hr'', ShapedLike_trans hsl (hshape r)⟩
        · rw [ihfil]
          have hq : ∀ r, isHold resId (if decide (r.id = i) then
              { r with remaining_amount := r.remaining_amount - d } else r)
              = isHold resId r := by
            intro r
            by_cases hb : decide (r.id = i) = true
            · rw [if_pos hb]
              simp [isHold]
            · rw [if_neg hb]
          have hh : ∀ r, isHold resId r = true →
              (fun r : Transaction => (r.user_id, r.amount))
                (if decide (r.id = i) then
                  { r with remaining_amount := r.remaining_amount - d } else r)
              = (r.user_id, r.amount) := by
            intro r _
            by_cases hb : decide (r.id = i) = true
            · rw [if_pos hb]
            · rw [if_neg hb]
          rw [filter_map_map_update hq hh (t ++ [mkHold (ids k) u d resId now])]
          rw [List.filter_append]
          have hone : [mkHold (ids k) u d resId now].filter (isHold resId)
              = [mkHold (ids k) u d resId now] := by
            simp [isHold, mkHold]
          rw [hone, List.map_append]
          simp [mkHold]

theorem applyReturns_spec (now : Int) (u : Nat) :
    ∀ (rs : List (Nat × Int)) (t t' : State),
    applyReturns now t rs = .ok t' →
    (t.map (·.id)).Nodup →
    RemInv t →
    (∀ p ∈ rs, ∃ hh ∈ t, hh.id = p.1 ∧ hh.user_id = u) →
    (∃ r ∈ t, liveReturnTarget now u r = true) →
    (t'.map (contrib now u)).sum
      = (t.map (contrib now u)).sum + (rs.map (·.2)).sum
  | [], t, t', h, _, _, _, _ => by
    unfold applyReturns at h
    injection h with h2
    subst h2
    simp
  | (hid, amt) :: rest, t, t', h, hnd, hinv, hrs, htgt => by
    unfold applyReturns at h
    split at h
    · simp at h
    · next hrow hfind =>
      obtain ⟨h0, hh0, h0id0, h0u⟩ := hrs (hid, amt) (List.mem_cons_self _ _)
      have h0id : h0.id = hid := h0id0
      have hfind0 : t.find? (fun x => decide (x.id = h0.id)) = some h0 :=
        find?_eq_of_nodup t h0 hnd hh0
      rw [h0id] at hfind0
      rw [hfind] at hfind0
      injection hfind0 with hx
      subst hx
      rw [h0u] at h
      split at h
      · next hhead =>
        exfalso
        obtain ⟨r0, hr0, hl0⟩ := htgt
        have hfne : t.filter (liveReturnTarget now u) ≠ [] := fun hnil => by
          have := List.filter_eq_nil_iff.mp hnil r0 hr0
          simp [hl0] at this
        have hnil2 : sortByCreated (t.filter (liveReturnTarget now u)) = [] :=
          List.head?_eq_none_iff.mp hhead
        exact hfne (sortByCreated_eq_nil.mp hnil2)
      · next tgt hhead =>
        have htgtmem : tgt ∈ t ∧ liveReturnTarget now u tgt = true := by
          have h1 : tgt ∈ sortByCreated (t.filter (liveReturnTarget now u)) := by
            cases hsl : sortByCreated (t.filter (liveReturnTarget now u)) with
            | nil => rw [hsl] at hhead; simp at hhead
            | cons a l' =>
              rw [hsl] at hhead
              simp only [List.head?_cons, Option.some.injEq] at hhead
              rw [← hhead]
              exact List.mem_cons_self _ _
          have h2 := mem_sortByCreated.mp h1
          exact ⟨(List.mem_filter.mp h2).1, (List.mem_filter.mp h2).2⟩
        split at h
        · next t1 hup =>
          obtain ⟨htu, htt, hts, hte⟩ := liveReturnTarget_parts htgtmem.2
          obtain ⟨rfl, hck⟩ := updateRows_ok hup
          have hstep := sum_map_update_one (g := contrib now u) t tgt.id
            (fun r => { r with remaining_amount := r.remaining_amount + amt })
            tgt hnd htgtmem.1 rfl
          have hstep' : ((t.map (fun r => if decide (r.id = tgt.id) then
              { r with remaining_amount := r.remaining_amount + amt } else r)).map
              (contrib now u)).sum
              = (t.map (contrib now u)).sum - contrib now u tgt
                + contrib now u { tgt with
                    remaining_amount := tgt.remaining_amount + amt } := hstep
          have hctgt : contrib now u tgt = tgt.remaining_amount :=
            contrib_eq_remaining htu htt hts hte (hinv tgt htgtmem.1).1
          have hcknew : rowOk { tgt with
              remaining_amount := tgt.remaining_amount + amt } = true :=
            hck tgt htgtmem.1 (by simp)
          have hcnew : contrib now u { tgt with
              remaining_amount := tgt.remaining_amount + amt }
              = tgt.remaining_amount + amt :=
            contrib_eq_remaining htu htt hts hte (rowOk_rem hcknew).1
          have hnd1 : ((t.map (fun r => if decide (r.id = tgt.id) then
              { r with remaining_amount := r.remaining_amount + amt } else r)).map
              (·.id)).Nodup := by
            rw [map_id_update (p := fun r => decide (r.id = tgt.id))
              (f := fun r => { r with remaining_amount := r.remaining_amount + amt })
              (fun r => rfl)]
            exact hnd
          have hrs1 : ∀ p ∈ rest,
              ∃ hh ∈ t.map (fun r => if decide (r.id = tgt.id) then
                { r with remaining_amount := r.remaining_amount + amt } else r),
                hh.id = p.1 ∧ hh.user_id = u := by
            intro p hp
            obtain ⟨hh, hhm, hhid, hhu⟩ := hrs p (List.mem_cons_of_mem _ hp)
            refine ⟨(fun r => if decide (r.id = tgt.id) then
                { r with remaining_amount := r.remaining_amount + amt } else r) hh,
              List.mem_map_of_mem _ hhm, ?_, ?_⟩
            · by_cases hb : decide (hh.id = tgt.id) = true
              · simp only [hb, if_true]
                exact hhid
              · simp only [if_neg hb]
                exact hhid
            · by_cases hb : decide (hh.id = tgt.id) = true
              · simp only [hb, if_true]
                exact hhu
              · simp only [if_neg hb]
                exact hhu
          have htgt1 : ∃ r ∈ t.map (fun r => if decide (r.id = tgt.id) then
              { r with remaining_amount := r.remaining_amount + amt } else r),
              liveReturnTarget now u r = true := by
            refine ⟨(fun r => if decide (r.id = tgt.id) then
                { r with remaining_amount := r.remaining_amount + amt } else r) tgt,
              List.mem_map_of_mem _ htgtmem.1, ?_⟩
            simp only [decide_eq_true_eq, if_pos rfl]
            have hexp : expiresOk now { tgt with
                remaining_amount := tgt.remaining_amount + amt } = true := hte
            simp only [liveReturnTarget, Bool.and_eq_true, decide_eq_true_eq]
            exact ⟨⟨⟨htu, htt⟩, hts⟩, hexp⟩
          have ih := applyReturns_spec now u rest _ t' h hnd1
            (RemInv_updateRows hinv hup) hrs1 htgt1
          rw [ih, hstep', hctgt, hcnew]
          simp only [List.map_cons, List.sum_cons]
          omega
        · simp at h

/-- A hold row of reservation 9 for user 7 over 50 points, in a ledger holding no
deposit row at all. -/
def c2hold : Transaction :=
  { id := 1, user_id := 7, amount := 50, type := .reserve, status := .reserved,
    expires_at := none, created_at := 0, reservation_id := some 9, remaining_amount := 50 }

def c2cancelled : Transaction :=
  { id := 1, user_id := 7, amount := 50, type := .reserve, status := .cancelled,
    expires_at := none, created_at := 0, reservation_id := some 9, remaining_amount := 50 }

/-- Counterexample to C2 as stated: reservation 9 is active (one hold of amount
50), RollbackReservation succeeds, yet user 7's deposit pool receives nothing
(balance 0 before and after): the per-hold return UPDATE matches zero rows when
the user owns no completed unexpired deposit lot, so the successful rollback does
not return the sum of the hold amounts into deposit lots. -/
theorem rollback_conservation_cex :
    RollbackReservation [c2hold] 0 9 = .ok [c2cancelled]
      ∧ c2hold.amount = 50
      ∧ (GetBalance [c2hold] 0 7).total_amount = 0
      ∧ (GetBalance [c2cancelled] 0 7).total_amount = 0 :=
  ⟨rfl, rfl, rfl, rfl⟩

/-- C2 (amended): a successful RollbackReservation cancels R's hold rows and
credits each hold's amount to the oldest live (completed, unexpired) deposit lot
of the hold's user when such a lot exists; holds whose user has no such lot are
cancelled with no credit, and the rollback can also fail outright when a credit
would push the receiving lot's `remaining_amount` above its `amount`. In
particular, from any valid state (rows satisfy the schema checks, primary keys
unique, the reservation id and hold row ids fresh), ReservePoints of A > 0
immediately followed by a **successful** RollbackReservation of the returned id
restores the user's GetBalance total to its pre-reserve value. -/
theorem reserve_then_rollback_restores_balance
    (s s1 s2 : State) (now : Int) (ids : Nat → Nat) (resId u rid : Nat) (A : Int)
    (hInv : RemInv s)
    (hnd : (s.map (·.id)).Nodup)
    (hres : ∀ r ∈ s, r.reservation_id ≠ some resId)
    (hinj : ∀ a b, ids a = ids b → a = b)
    (hfresh : ∀ n, ids n ∉ s.map (·.id))
    (hA : 0 < A)
    (hrsv : ReservePoints s now ids resId u A = .ok (rid, s1))
    (hrb : RollbackReservation s1 now resId = .ok s2) :
    (GetBalance s2 now u).total_amount = (GetBalance s now u).total_amount := by
  rw [ReservePoints_eq] at hrsv
  cases hcons : fifoConsume ((sortByCreated (s.filter (isLiveDeposit now u))).map
      (fun r => (r.id, r.remaining_amount))) A with
  | none => rw [hcons] at hrsv; simp at hrsv
  | some ds =>
    rw [hcons] at hrsv
    have hpair : ds = fifoDeduct ((sortByCreated (s.filter (isLiveDeposit now u))).map
        (fun r => (r.id, r.remaining_amount))) A
        ∧ ¬((((sortByCreated (s.filter (isLiveDeposit now u))).map
          (fun r => (r.id, r.remaining_amount))).map (·.2)).sum < A) := by
      unfold fifoConsume at hcons
      split at hcons
      · simp at hcons
      · next hnlt =>
        injection hcons with hx
        exact ⟨hx.symm, hnlt⟩
    obtain ⟨rfl, hnlt⟩ := hpair
    have hpos : ∀ p ∈ (sortByCreated (s.filter (isLiveDeposit now u))).map
        (fun r => (r.id, r.remaining_amount)), 0 < p.2 := by
      intro p hp
      obtain ⟨r, hr, rfl⟩ := List.mem_map.mp hp
      have hlv := (List.mem_filter.mp (mem_sortByCreated.mp hr)).2
      exact (isLiveDeposit_parts hlv).2.2.2.1
    have hge : A ≤ (((sortByCreated (s.filter (isLiveDeposit now u))).map
        (fun r => (r.id, r.remaining_amount))).map (·.2)).sum := not_lt.mp hnlt
    have hdsum := (fifoDeduct_spec _ A hpos hA hge).2.1
    have hdsne : fifoDeduct ((sortByCreated (s.filter (isLiveDeposit now u))).map
        (fun r => (r.id, r.remaining_amount))) A ≠ [] := by
      intro hnil
      rw [hnil] at hdsum
      simp at hdsum
      omega
    have hLfst : ((sortByCreated (s.filter (isLiveDeposit now u))).map
        (fun r => (r.id, r.remaining_amount))).map (·.1)
        = (sortByCreated (s.filter (isLiveDeposit now u))).map (·.id) := by
      rw [List.map_map]
      rfl
    have hds : ∀ p ∈ fifoDeduct ((sortByCreated (s.filter (isLiveDeposit now u))).map
        (fun r => (r.id, r.remaining_amount))) A,
        ∃ r ∈ s, r.id = p.1 ∧ isLiveDeposit now u r = true := by
      intro p hp
      have h1 : p.1 ∈ (fifoDeduct ((sortByCreated (s.filter (isLiveDeposit now u))).map
          (fun r => (r.id, r.remaining_amount))) A).map (·.1) :=
        List.mem_map_of_mem _ hp
      rw [fifoDeduct_fst, List.map_take, hLfst] at h1
      have h2 := List.mem_of_mem_take h1
      obtain ⟨r, hr, hrid⟩ := List.mem_map.mp h2
      have h3 := List.mem_filter.mp (mem_sortByCreated.mp hr)
      exact ⟨r, h3.1, hrid, h3.2⟩
    have hdsnd : ((fifoDeduct ((sortByCreated (s.filter (isLiveDeposit now u))).map
        (fun r => (r.id, r.remaining_amount))) A).map (·.1)).Nodup := by
      rw [fifoDeduct_fst, List.map_take, hLfst]
      apply List.Nodup.sublist (List.take_sublist _ _)
      have hfilnd : ((s.filter (isLiveDeposit now u)).map (·.id)).Nodup :=
        List.Nodup.sublist (List.Sublist.map _ (List.filter_sublist s)) hnd
      exact ((sortByCreated_perm _).map (·.id)).nodup_iff.mpr hfilnd
    have hrsv2 : (match applyReserves u resId now ids 0 s
        (fifoDeduct ((sortByCreated (s.filter (isLiveDeposit now u))).map
          (fun r => (r.id, r.remaining_amount))) A) with
        | .ok s1x => (.ok (resId, s1x) : Except LedgerErr (Nat × State))
        | .error e => .error e) = .ok (rid, s1) := hrsv
    cases hrs : applyReserves u resId now ids 0 s
        (fifoDeduct ((sortByCreated (s.filter (isLiveDeposit now u))).map
          (fun r => (r.id, r.remaining_amount))) A) with
    | error e => rw [hrs] at hrsv2; simp at hrsv2
    | ok s1' =>
      rw [hrs] at hrsv2
      have h3 : (Except.ok (resId, s1') : Except LedgerErr (Nat × State))
          = .ok (rid, s1) := hrsv2
      simp only [Except.ok.injEq, Prod.mk.injEq] at h3
      obtain ⟨-, h4⟩ := h3
      subst h4
      obtain ⟨hbal1, hinv1, hnd1, hframe, hfil⟩ :=
        applyReserves_spec u resId now ids hinj _ 0 s s1' hrs hnd hInv
          (fun n _ => hfresh n) hds hdsnd
      have hfil0 : s.filter (isHold resId) = [] := by
        rw [List.filter_eq_nil_iff]
        intro r hr hh
        simp [isHold] at hh
        exact hres r hr hh.1
      rw [hfil0] at hfil
      simp only [List.map_nil, List.nil_append] at hfil
      rw [RollbackReservation_eq] at hrb
      have hs1ne : s1'.filter (isHold resId) ≠ [] := by
        intro hnil
        rw [hnil] at hfil
        have h8 : (fifoDeduct ((sortByCreated (s.filter (isLiveDeposit now u))).map
            (fun r => (r.id, r.remaining_amount))) A).map
              (fun p => ((u : Nat), p.2)) = [] := by
          simpa using hfil.symm
        exact hdsne (List.map_eq_nil_iff.mp h8)
      have hemp : ¬(((s1'.filter (isHold resId)).map
          (fun r => (r.id, r.amount))).isEmpty = true) := by
        simp only [List.isEmpty_iff]
        exact fun hm => hs1ne (List.map_eq_nil_iff.mp hm)
      rw [if_neg hemp] at hrb
      cases hcan : updateRows s1' (isHold resId)
          (fun r => { r with status := .cancelled }) with
      | error e => rw [hcan] at hrb; simp at hrb
      | ok sc =>
        rw [hcan] at hrb
        have h2 : applyReturns now sc ((s1'.filter (isHold resId)).map
            (fun r => (r.id, r.amount))) = .ok s2 := hrb
        obtain ⟨hsceq, -⟩ := updateRows_ok hcan
        have husers : ∀ x ∈ s1'.filter (isHold resId), x.user_id = u := by
          intro x hx
          have hmem : (x.user_id, x.amount) ∈ (s1'.filter (isHold resId)).map
              (fun r => (r.user_id, r.amount)) := List.mem_map_of_mem _ hx
          rw [hfil] at hmem
          obtain ⟨p, hp, hpe⟩ := List.mem_map.mp hmem
          have h5 := congrArg Prod.fst hpe
          simpa using h5.symm
        have hndc : (sc.map (·.id)).Nodup := by
          rw [hsceq]
          rw [map_id_update (p := isHold resId)
            (f := fun r => { r with status := TxStatus.cancelled }) (fun r => rfl)]
          exact hnd1
        have hinvc : RemInv sc := RemInv_updateRows hinv1 hcan
        have hrsc : ∀ p ∈ (s1'.filter (isHold resId)).map (fun r => (r.id, r.amount)),
            ∃ hh ∈ sc, hh.id = p.1 ∧ hh.user_id = u := by
          intro p hp
          obtain ⟨x, hx, rfl⟩ := List.mem_map.mp hp
          have hxs1 : x ∈ s1' := (List.mem_filter.mp hx).1
          refine ⟨(fun r => if isHold resId r then
              { r with status := TxStatus.cancelled } else r) x, ?_, ?_, ?_⟩
          · rw [hsceq]
            exact List.mem_map_of_mem _ hxs1
          · by_cases hb : isHold resId x = true
            · simp only [hb, if_true]
            · simp only [if_neg hb]
          · by_cases hb : isHold resId x = true
            · simp only [hb, if_true]
              exact husers x hx
            · simp only [if_neg hb]
              exact husers x hx
        have htgtc : ∃ r ∈ sc, liveReturnTarget now u r = true := by
          obtain ⟨p0, hp0⟩ := List.exists_mem_of_ne_nil _ hdsne
          obtain ⟨rdep, hrdep, -, hrlive⟩ := hds p0 hp0
          obtain ⟨r', hr', hsl⟩ := hframe rdep hrdep
          obtain ⟨hu', ht', hs', hpos', he'⟩ := isLiveDeposit_parts hrlive
          have hne := hres rdep hrdep
          have hnotHold : ¬(isHold resId r' = true) := by
            simp [isHold, hsl.2.2.2.2.2, hne]
          refine ⟨(fun r => if isHold resId r then
              { r with status := TxStatus.cancelled } else r) r', ?_, ?_⟩
          · rw [hsceq]
            exact List.mem_map_of_mem _ hr'
          · simp only [if_neg hnotHold]
            have hexp' : expiresOk now r' = true := by
              rw [expiresOk_congr hsl.2.2.2.2.1]
              exact he'
            simp only [liveReturnTarget, Bool.and_eq_true, decide_eq_true_eq]
            exact ⟨⟨⟨hsl.2.1.trans hu', hsl.2.2.1.trans ht'⟩,
              hsl.2.2.2.1.trans hs'⟩, hexp'⟩
        have hretbal := applyReturns_spec now u _ sc s2 h2 hndc hinvc hrsc htgtc
        have h6 : (s1'.filter (isHold resId)).map (fun r => r.amount)
            = (fifoDeduct ((sortByCreated (s.filter (isLiveDeposit now u))).map
              (fun r => (r.id, r.remaining_amount))) A).map (fun p => p.2) := by
          have h7 := congrArg (List.map Prod.snd) hfil
          rw [List.map_map, List.map_map] at h7
          exact h7
        have hsnd : (((s1'.filter (isHold resId)).map
            (fun r => (r.id, r.amount))).map (·.2)).sum
            = ((fifoDeduct ((sortByCreated (s.filter (isLiveDeposit now u))).map
              (fun r => (r.id, r.remaining_amount))) A).map (·.2)).sum := by
          rw [List.map_map]
          show ((s1'.filter (isHold resId)).map (fun r => r.amount)).sum
            = ((fifoDeduct ((sortByCreated (s.filter (isLiveDeposit now u))).map
              (fun r => (r.id, r.remaining_amount))) A).map (fun p => p.2)).sum
          rw [h6]
        rw [total_eq_sum_contrib, total_eq_sum_contrib, hretbal]
        have hcanbal : (sc.map (contrib now u)).sum
            = (s1'.map (contrib now u)).sum := by
          rw [hsceq]
          exact sum_contrib_cancel now u resId s1'
        rw [hcanbal, hsnd, hbal1]
        omega

/-- A live deposit lot of 100 points for user 7, the initial state of the C2
witness run. -/
def c2lot : Transaction :=
  { id := 1, user_id := 7, amount := 100, type := .deposit, status := .completed,
    expires_at := none, created_at := 0, reservation_id := none, remaining_amount := 100 }

/-- The deposit lot after reserving 40 of its 100 points. -/
def c2lot60 : Transaction := { c2lot with remaining_amount := 60 }

/-- The hold row created by the C2 witness reservation. -/
def c2holdrow : Transaction := mkHold 100 7 40 9 0

/-- Witness for C2: reserving 40 of user 7's 100 points and rolling the
reservation back restores the GetBalance total to 100. -/
theorem reserve_then_rollback_restores_balance_witness :
    ReservePoints [c2lot] 0 (fun n => 100 + n) 9 7 40 = .ok (9, [c2lot60, c2holdrow])
      ∧ RollbackReservation [c2lot60, c2holdrow] 0 9
          = .ok [c2lot, { c2holdrow with status := TxStatus.cancelled }]
      ∧ (GetBalance [c2lot, { c2holdrow with status := TxStatus.cancelled }] 0 7).total_amount
          = (GetBalance [c2lot] 0 7).total_amount :=
  ⟨rfl, rfl,
    reserve_then_rollback_restores_balance [c2lot] [c2lot60, c2holdrow]
      [c2lot, { c2holdrow with status := TxStatus.cancelled }] 0 (fun n => 100 + n)
      9 7 9 40 (by unfold RemInv; decide) (by decide) (by decide)
      (fun a b h => Nat.add_left_cancel h)
      (fun n hmem => by simp [c2lot] at hmem; omega) (by decide) rfl rfl⟩
